import Mathlib

/-
Verification of the dtrx extraction decision engine against its
natural-language specification.  The repository ships only its test suite
under src/tests; the decision-engine implementation itself is not part of
the sources, so every definition below is a shallow model built from the
specification text (and, where the specification is silent or contradicted,
from the behavior pinned by the repository test suite in
src/tests/test_dtrx.py).
-/

namespace Dtrx

/-- Modelled from the spec: the filesystem is the only shared mutable
resource; it is modelled as the list of existing paths, each path a list
of components relative to the working directory. -/
abbrev FS := List (List String)

/-- Modelled from the spec: an Entry is one line of a listing, a relative
path together with an is-directory flag.  The nested field carries the
listing that the entry would have when the entry is itself an archive
(empty otherwise); the lister and the recursion machinery may consult it. -/
inductive Entry where
  | mk (path : List String) (isDir : Bool) (nested : List Entry)

def Entry.path : Entry → List String
  | .mk p _ _ => p

def Entry.isDir : Entry → Bool
  | .mk _ d _ => d

def Entry.nested : Entry → List Entry
  | .mk _ _ ns => ns

/-- Modelled from the spec: the configured one-entry policy, an enumerated
value in Inside, Rename, Here, AskEachTime. -/
inductive Policy where
  | inside
  | renameEntry
  | here
  | askEachTime
deriving DecidableEq

/-- Modelled from the spec: each archive resolves to one of Inside, Rename,
Here; AskEachTime is only a configuration state, never a resolved
decision. -/
inductive ResolvedPolicy where
  | inside
  | renameEntry
  | here
deriving DecidableEq

/-- Modelled from the spec: the EntrySummary classification of the top
level of an archive listing: empty, one file, one directory, or many. -/
inductive Summary where
  | empty
  | oneFile (nm : String)
  | oneDir (nm : String)
  | many
deriving DecidableEq

/-- The first component of the path of an entry (its top-level name). -/
def Entry.topName (e : Entry) : String := e.path.headD ""

/-- Modelled from the spec: the distinct top-level names occurring in a
listing. -/
def topNames (es : List Entry) : List String :=
  (es.map Entry.topName).dedup

/-- Modelled from the spec: whether the single top-level name of a listing
denotes a directory: either the listing marks the bare name as a
directory, or some entry lies strictly below it. -/
def isDirTop (es : List Entry) (n : String) : Bool :=
  es.any (fun e =>
    (e.path == [n] && e.isDir) ||
    (e.topName == n && decide (1 < e.path.length)))

/-- Modelled from the spec: classification rule of the Single-Entry Policy
Engine: empty sequence gives Empty; exactly one top-level path gives
OneDirectory or OneFile according to whether the path is a directory;
otherwise Many. -/
def classify (es : List Entry) : Summary :=
  match topNames es with
  | [] => .empty
  | [n] => if isDirTop es n then .oneDir n else .oneFile n
  | _ => .many

/-- Modelled from the spec: an ExtractionPlan records whether a wrapping
directory must be created (and its name), and whether an existing single
top-level name must be renamed to the base name of the archive (the pair
holds the old and the new name). -/
structure ExtractionPlan where
  wrapDir : Option String
  renamePair : Option (String × String)
deriving DecidableEq

/-- Modelled from the spec: plan for a one-entry archive under a resolved
policy: Inside wraps in a directory named after the archive base name,
Here extracts directly leaving the original entry name, Rename extracts
directly and then renames the single entry to the base name. -/
def planOne (rp : ResolvedPolicy) (n base : String) : ExtractionPlan :=
  match rp with
  | .inside => ⟨some base, none⟩
  | .here => ⟨none, none⟩
  | .renameEntry => ⟨none, some (n, base)⟩

/-- Modelled from the spec: policy resolution of the Single-Entry Policy
Engine.  Flat mode suppresses the wrapping-directory behavior uniformly,
overriding Inside.  Many always gets Inside semantics; a one-entry
classification follows the resolved policy.  An empty listing plans
nothing at all: the repository test test_extracting_empty_archive pins
that extracting an empty archive creates no wrapping directory and no
file, agreeing with the zero-files sentence of spec section 8 and
overriding the Inside-for-Empty sentence of section 4.4. -/
def resolvePolicy (s : Summary) (rp : ResolvedPolicy) (base : String)
    (flat : Bool) : ExtractionPlan :=
  if flat then ⟨none, none⟩
  else
    match s with
    | .empty => ⟨none, none⟩
    | .many => ⟨some base, none⟩
    | .oneDir n => planOne rp n base
    | .oneFile n => planOne rp n base

/-- Modelled from the spec: resolving the configured policy: a concrete
configuration resolves to itself; AskEachTime takes the interactive
answer, and with no controlling terminal (no answer) silently falls back
to Inside semantics. -/
def resolveAsk (configured : Policy) (answer : Option ResolvedPolicy) :
    ResolvedPolicy :=
  match configured with
  | .inside => .inside
  | .renameEntry => .renameEntry
  | .here => .here
  | .askEachTime => answer.getD .inside

/-- Modelled from the spec: the numeric-suffix scheme of the Conflict
Resolver: candidate number i for a desired name. -/
def probeName (p : String) (i : Nat) : String := p ++ "." ++ toString i

/-- Modelled from the spec: the attempt cap of the Conflict Resolver; the
graceful-coping tests pin ten numeric suffixes. -/
def maxProbes : Nat := 10

/-- Modelled from the spec: probe candidates in increasing numeric order
starting at index i with the given number of remaining attempts; return
the first free name, or, when the attempts are exhausted, the last probed
name together with a warning flag. -/
def searchFree (fs : FS) (p : String) : Nat → Nat → String × Bool
  | i, 0 => (probeName p i, true)
  | i, 1 => (probeName p i, fs.contains [probeName p i])
  | i, n + 2 =>
    if fs.contains [probeName p i] then searchFree fs p (i + 1) (n + 1)
    else (probeName p i, false)

/-- Modelled from the spec: the Conflict Resolver: if the desired name
does not exist return it unchanged; otherwise probe the numeric suffixes
in increasing order, returning the first free name, with a warning flag
set when the capped attempts are exhausted (in which case the last probed
name is returned). -/
def resolve (fs : FS) (p : String) : String × Bool :=
  if fs.contains [p] then searchFree fs p 1 maxProbes else (p, false)

/-- Modelled from the spec: the Orchestrator routes a colliding target
through the Conflict Resolver, unless the overwrite configuration is set,
in which case the pre-existing path is reused directly. -/
def chooseDestination (overwrite : Bool) (fs : FS) (d : String) :
    String × Bool :=
  if overwrite then (d, false) else resolve fs d

/-- Modelled from the spec: the priority-ordered suffix table of the Type
Detector, longest match first, archive formats followed by
decompress-only filters. -/
def knownSuffixes : List String :=
  [".tar.gz", ".tar.bz2", ".tar.lzma", ".tar.xz", ".tar.lrz", ".tar.lz",
   ".tar", ".zip", ".lzh", ".deb", ".gem", ".7z", ".cpio", ".rar", ".arj",
   ".gz", ".bz2", ".xz", ".lzma", ".lrz", ".lz", ".Z"]

/-- Whether the second string is a suffix of the first, computed on the
underlying character lists. -/
def strEndsWith (nm s : String) : Bool :=
  decide (s.data.length ≤ nm.data.length) &&
    (nm.data.drop (nm.data.length - s.data.length) == s.data)

/-- Drop the last k characters of a string, computed on the underlying
character list. -/
def strDropRight (nm : String) (k : Nat) : String :=
  String.mk (nm.data.take (nm.data.length - k))

/-- Modelled from the spec: whether a file name matches a known archive
or compression suffix. -/
def matchesKnownSuffix (nm : String) : Bool :=
  knownSuffixes.any (fun s => strEndsWith nm s)

/-- Modelled from the spec: the base name of an archive, its file name
with the recognized suffix removed (longest match wins through the table
order). -/
def baseName (nm : String) : String :=
  match knownSuffixes.find? (fun s => strEndsWith nm s) with
  | some s => strDropRight nm s.data.length
  | none => nm

/-- Modelled from the spec: the observable effects of the engine: a
display or diagnostic line, the creation of a path, or the renaming of a
top-level name. -/
inductive Action where
  | output (s : String)
  | create (p : List String)
  | move (a b : String)

/-- Modelled from the spec: effect of a single action on the filesystem:
printing changes nothing, creation adds the path, a move renames every
path whose top-level component is the old name. -/
def applyAct (fs : FS) : Action → FS
  | .output _ => fs
  | .create p => fs ++ [p]
  | .move a b => fs.map (fun q => if q.headD "" = a then b :: q.tail else q)

/-- Run a list of actions in order, collecting the printed lines and the
final filesystem. -/
def runActions (fs : FS) : List Action → List String × FS
  | [] => ([], fs)
  | a :: as =>
    let rest := runActions (applyAct fs a) as
    ((match a with | .output s => [s] | _ => []) ++ rest.1, rest.2)

/-- Modelled from the spec: quiet levels control how much is printed; the
doubly-quiet level suppresses every diagnostic line. -/
def emitLine (quiet : Nat) (s : String) : List String :=
  if 2 ≤ quiet then [] else [s]

/-- Modelled from the spec: the engine configuration: the configured
one-entry policy, flat mode, the overwrite option, the quiet level,
listing-only mode, and the recursive flag. -/
structure Config where
  onePolicy : Policy
  flat : Bool
  overwrite : Bool
  quiet : Nat
  listMode : Bool
  recursive : Bool

/-- Warning actions emitted when the Conflict Resolver exhausted its
attempts for the chosen destination. -/
def warnActs (quiet : Nat) (r : String × Bool) : List Action :=
  if r.2 then (emitLine quiet ("WARNING: extracting into " ++ r.1)).map .output
  else []

/-- Modelled from the spec: the extraction step of the Orchestrator: the
plan comes from the Policy Engine, the Conflict Resolver is consulted
immediately before the physical create or rename step, and the resulting
actions create the wrapping directory and the extracted paths, or extract
directly and rename the single top-level entry, or extract directly in
place. -/
def extractActions (cfg : Config) (fs : FS) (base : String)
    (es : List Entry) : List Action :=
  let plan := resolvePolicy (classify es) (resolveAsk cfg.onePolicy none)
      base cfg.flat
  match plan.wrapDir with
  | some d =>
    let r := chooseDestination cfg.overwrite fs d
    warnActs cfg.quiet r ++
      (Action.create [r.1] :: es.map (fun e => Action.create (r.1 :: e.path)))
  | none =>
    match plan.renamePair with
    | some pr =>
      let r := chooseDestination cfg.overwrite fs pr.2
      warnActs cfg.quiet r ++
        es.map (fun e => Action.create e.path) ++ [Action.move pr.1 r.1]
    | none => es.map (fun e => Action.create e.path)

/-- Display form of an entry in a listing: its path joined with slashes,
directories shown with a trailing slash. -/
def display (e : Entry) : String :=
  String.intercalate "/" e.path ++ (if e.isDir then "/" else "")

/-- Modelled from the spec: the Lister never writes to disk: its program
consists of display lines only.  The repository test
test_recursive_listing_is_a_no_op pins that the recursive flag does not
change the listing: entries naming nested archives are shown as ordinary
lines and are not expanded. -/
def listProgram (es : List Entry) : List Action :=
  es.map (fun e => Action.output (display e))

/-- Modelled from the spec: the recursive-expansion reading of the Lister
contract in the specification, stated for comparison: with recursion
requested, an entry whose name matches a known archive suffix also has
its own listing produced in place, nested under the parent line; the
fuel argument bounds the expansion depth. -/
def listLinesExpanded : Nat → List Entry → List String
  | 0, es => es.map display
  | fuel + 1, es =>
    es.flatMap (fun e =>
      display e ::
        (if matchesKnownSuffix (e.path.getLastD "") then
          listLinesExpanded fuel e.nested
        else []))

/-- Modelled from the spec: one input path as the Orchestrator sees it:
missing, a directory, unreadable, carrying no known suffix, failing in
the underlying tool, or a readable archive with its listing. -/
inductive InputFile where
  | missing (nm : String)
  | directoryPath (nm : String)
  | unreadable (nm : String)
  | noKnownSuffix (nm : String)
  | toolFailure (nm : String) (code : Nat)
  | archive (nm : String) (es : List Entry)

/-- Whether an input can be detected, read and extracted at all. -/
def inputOk : InputFile → Bool
  | .archive _ _ => true
  | _ => false

/-- Modelled from the spec: processing of one input path: detection
failures and tool failures yield a diagnostic (subject to the quiet
level) and a failure flag and leave the filesystem unchanged; an archive
is either listed (listing mode) or extracted through the action
machinery. -/
def processOne (cfg : Config) (fs : FS) : InputFile → List String × FS × Bool
  | .missing nm =>
    (emitLine cfg.quiet ("dtrx: ERROR: " ++ nm ++ ": no such file"), fs, false)
  | .directoryPath nm =>
    (emitLine cfg.quiet ("dtrx: ERROR: " ++ nm ++ ": cannot work with a directory"),
      fs, false)
  | .unreadable nm =>
    (emitLine cfg.quiet ("dtrx: ERROR: " ++ nm ++ ": permission denied"), fs, false)
  | .noKnownSuffix nm =>
    (emitLine cfg.quiet ("dtrx: ERROR: " ++ nm ++ ": not a known archive type"),
      fs, false)
  | .toolFailure nm code =>
    (emitLine cfg.quiet
      ("dtrx: ERROR: " ++ nm ++ ": returned status code " ++ toString code),
      fs, false)
  | .archive nm es =>
    if cfg.listMode then
      let r := runActions fs (listProgram es)
      (r.1, r.2, true)
    else
      let r := runActions fs (extractActions cfg fs (baseName nm) es)
      (r.1, r.2, true)

/-- Modelled from the spec: all inputs are processed in order; a failure
is recorded but the remaining archives are still processed. -/
def processAll (cfg : Config) (fs : FS) : List InputFile →
    List String × FS × Bool
  | [] => ([], fs, true)
  | i :: is =>
    let r := processOne cfg fs i
    let rr := processAll cfg r.2.1 is
    (r.1 ++ rr.1, rr.2.1, r.2.2 && rr.2.2)

/-- The usage line printed when no archives are given. -/
def usageLine : String := "usage: dtrx [options] archive [archives ...]"

/-- Modelled from the spec: the top-level invocation: with no input
archives it prints usage and exits non-zero; otherwise it processes every
input and exits zero exactly when all of them succeeded. -/
def dtrxRun (cfg : Config) (fs : FS) (inputs : List InputFile) :
    List String × FS × Nat :=
  match inputs with
  | [] => ([usageLine], fs, 2)
  | _ =>
    let r := processAll cfg fs inputs
    (r.1, r.2.1, if r.2.2 then 0 else 1)

/-- Concrete filesystem with a desired name and its first nine numeric
suffixes taken, mirroring the overwrite-protection test fixtures. -/
def busyNine : FS :=
  [["test-1.23"], ["test-1.23.1"], ["test-1.23.2"], ["test-1.23.3"],
   ["test-1.23.4"], ["test-1.23.5"], ["test-1.23.6"], ["test-1.23.7"],
   ["test-1.23.8"], ["test-1.23.9"]]

/-- Concrete filesystem with a desired name and all ten numeric suffixes
taken, mirroring the graceful-coping test fixture. -/
def busyTen : FS := busyNine ++ [["test-1.23.10"]]

/-- A concrete listing with exactly one top-level directory, mirroring
the test-onedir fixture. -/
def oneDirListing : List Entry :=
  [Entry.mk ["test"] true [], Entry.mk ["test", "foobar"] false [],
   Entry.mk ["test", "quux"] false []]

/-- A concrete listing with several top-level entries, mirroring the
test-1.23 fixture. -/
def manyListing : List Entry :=
  [Entry.mk ["a", "b"] false [], Entry.mk ["1", "2", "3"] false [],
   Entry.mk ["foobar"] false []]

/-! ### Lemmas about the action machinery -/

theorem runActions_append (fs : FS) (as bs : List Action) :
    runActions fs (as ++ bs) =
      ((runActions fs as).1 ++ (runActions (runActions fs as).2 bs).1,
        (runActions (runActions fs as).2 bs).2) := by
  induction as generalizing fs with
  | nil => simp [runActions]
  | cons a as ih => simp [runActions, ih, List.append_assoc]

theorem runActions_creates (fs : FS) (ps : List (List String)) :
    runActions fs (ps.map Action.create) = ([], fs ++ ps) := by
  induction ps generalizing fs with
  | nil => simp [runActions]
  | cons p ps ih => simp [runActions, applyAct, ih]

theorem runActions_outputs {α : Type} (fs : FS) (l : List α) (f : α → String) :
    runActions fs (l.map (fun a => Action.output (f a))) = (l.map f, fs) := by
  induction l with
  | nil => simp [runActions]
  | cons a l ih => simp [runActions, applyAct, ih]

theorem map_fix_of_mem {α : Type} {l : List α} {f : α → α}
    (h : ∀ a ∈ l, f a = a) : l.map f = l :=
  (List.map_congr_left h).trans (List.map_id l)

/-! ### Lemmas about classification -/

theorem classify_empty_imp {es : List Entry} (h : classify es = .empty) :
    es = [] := by
  rcases htn : topNames es with _ | ⟨n, _ | ⟨m, r⟩⟩
  · have h2 : (es.map Entry.topName).dedup = [] := htn
    exact List.map_eq_nil_iff.mp ((List.dedup_eq_nil _).mp h2)
  · simp only [classify] at h
    rw [htn] at h
    split at h <;> (try split at h) <;> simp_all
  · simp only [classify] at h
    rw [htn] at h
    simp at h

theorem classify_oneDir_names {es : List Entry} {n : String}
    (h : classify es = .oneDir n) : topNames es = [n] := by
  rcases htn : topNames es with _ | ⟨m, _ | ⟨k, r⟩⟩
  · simp only [classify] at h
    rw [htn] at h
    simp at h
  · simp only [classify] at h
    rw [htn] at h
    split at h <;> (try split at h) <;> simp_all
  · simp only [classify] at h
    rw [htn] at h
    simp at h

theorem topName_of_single {es : List Entry} {n : String}
    (h : topNames es = [n]) : ∀ e ∈ es, e.topName = n := by
  intro e he
  have hm : e.topName ∈ (es.map Entry.topName).dedup :=
    List.mem_dedup.mpr (List.mem_map_of_mem _ he)
  have h2 : (es.map Entry.topName).dedup = [n] := h
  rw [h2] at hm
  simpa using hm

/-! ### Lemmas about the Conflict Resolver -/

theorem searchFree_found (fs : FS) (p : String) :
    ∀ fuel i k, 1 ≤ fuel → i ≤ k → k < i + fuel →
      fs.contains [probeName p k] = false →
      (∀ j, i ≤ j → j < k → fs.contains [probeName p j] = true) →
      searchFree fs p i fuel = (probeName p k, false) := by
  intro fuel
  induction fuel with
  | zero => intro i k h; exact absurd h (by omega)
  | succ n ih =>
    intro i k _ hik hlt hfree hbusy
    have hnk : [probeName p k] ∉ fs := by simpa using hfree
    cases n with
    | zero =>
      have hk : k = i := by omega
      subst hk
      simp [searchFree, hnk]
    | succ m =>
      by_cases hc : [probeName p i] ∈ fs
      · have hne : i ≠ k := by
          intro e
          rw [e] at hc
          exact hnk hc
        have hstep : searchFree fs p i (m + 1 + 1) =
            searchFree fs p (i + 1) (m + 1) := by
          simp [searchFree, hc]
        rw [hstep]
        exact ih (i + 1) k (by omega) (by omega) (by omega) hfree
          (fun j hj1 hj2 => hbusy j (by omega) hj2)
      · have hk : i = k := by
          by_contra hne
          have hi : i < k := by omega
          have hb := hbusy i (Nat.le_refl i) hi
          exact hc (by simpa using hb)
        subst hk
        simp [searchFree, hc]

theorem searchFree_exhaust (fs : FS) (p : String) :
    ∀ fuel i, 1 ≤ fuel →
      (∀ j, i ≤ j → j < i + fuel → fs.contains [probeName p j] = true) →
      searchFree fs p i fuel = (probeName p (i + fuel - 1), true) := by
  intro fuel
  induction fuel with
  | zero => intro i h; exact absurd h (by omega)
  | succ n ih =>
    intro i _ hbusy
    have hc : [probeName p i] ∈ fs := by
      simpa using hbusy i (Nat.le_refl i) (by omega)
    cases n with
    | zero =>
      simp [searchFree, hc]
    | succ m =>
      have hstep : searchFree fs p i (m + 1 + 1) =
          searchFree fs p (i + 1) (m + 1) := by
        simp [searchFree, hc]
      rw [hstep]
      have hrec := ih (i + 1) (by omega)
        (fun j hj1 hj2 => hbusy j (by omega) (by omega))
      rw [hrec]
      have harg : i + 1 + (m + 1) - 1 = i + (m + 1 + 1) - 1 := by omega
      rw [harg]

theorem searchFree_shape (fs : FS) (p : String) :
    ∀ fuel i, 1 ≤ fuel →
      ∃ j, i ≤ j ∧ j < i + fuel ∧
        (searchFree fs p i fuel).1 = probeName p j ∧
        ((searchFree fs p i fuel).2 = false →
          fs.contains [probeName p j] = false) := by
  intro fuel
  induction fuel with
  | zero => intro i h; exact absurd h (by omega)
  | succ n ih =>
    intro i _
    cases n with
    | zero =>
      refine ⟨i, Nat.le_refl i, by omega, by simp [searchFree], ?_⟩
      intro h2
      simpa [searchFree] using h2
    | succ m =>
      by_cases hc : [probeName p i] ∈ fs
      · have hstep : searchFree fs p i (m + 1 + 1) =
            searchFree fs p (i + 1) (m + 1) := by
          simp [searchFree, hc]
        obtain ⟨j, hj1, hj2, hj3, hj4⟩ := ih (i + 1) (by omega)
        exact ⟨j, by omega, by omega, by rw [hstep]; exact hj3,
          by rw [hstep]; exact hj4⟩
      · refine ⟨i, Nat.le_refl i, by omega, by simp [searchFree, hc], ?_⟩
        intro
        simpa using hc

theorem runActions_create_list (fs : FS) (d : List String) (es : List Entry)
    (f : Entry → List String) :
    runActions fs (Action.create d :: es.map (fun e => Action.create (f e))) =
      ([], fs ++ (d :: es.map f)) := by
  have h := runActions_creates fs (d :: es.map f)
  simpa [List.map_map, Function.comp] using h

/-! ### The claims -/

/-- C3: the Conflict Resolver returns a nonexistent desired path
unchanged; otherwise it probes the numeric suffixes in increasing order
and returns the first free name within the attempt bound; in particular,
with the desired path and suffixes 1 through 9 taken and suffix 10 free,
it returns suffix 10. -/
theorem c3_conflict_resolver (fs : FS) (p : String) (k : Nat)
    (hk1 : 1 ≤ k) (hk2 : k ≤ maxProbes)
    (hfree : fs.contains [probeName p k] = false)
    (hbusy : ∀ j, j < k → 1 ≤ j → fs.contains [probeName p j] = true) :
    resolve fs p =
      if fs.contains [p] then (probeName p k, false) else (p, false) := by
  have hmp : maxProbes = 10 := rfl
  cases hpc : fs.contains [p] with
  | false =>
    have hnmem : [p] ∉ fs := by simpa using hpc
    simp [resolve, hnmem]
  | true =>
    have hmem : [p] ∈ fs := by simpa using hpc
    have hs := searchFree_found fs p maxProbes 1 k (by omega) hk1 (by omega)
      hfree (fun j hj1 hj2 => hbusy j hj2 hj1)
    simp [resolve, hmem, hs]

/-- C4: the Orchestrator never silently overwrites a pre-existing target:
with the overwrite option the pre-existing path is reused directly as the
destination; without it the destination is routed through the Conflict
Resolver, yielding a numeric-suffix name, and whenever no exhaustion
warning is raised the chosen destination does not already exist. -/
theorem c4_overwrite_protection (fs : FS) (d : String)
    (hex : fs.contains [d] = true) :
    chooseDestination true fs d = (d, false) ∧
    chooseDestination false fs d = resolve fs d ∧
    (∃ i, 1 ≤ i ∧ i ≤ maxProbes ∧
      (chooseDestination false fs d).1 = probeName d i) ∧
    ((chooseDestination false fs d).2 = true ∨
      fs.contains [(chooseDestination false fs d).1] = false) := by
  have hmp : maxProbes = 10 := rfl
  have hmem : [d] ∈ fs := by simpa using hex
  have hres : chooseDestination false fs d = searchFree fs d 1 maxProbes := by
    simp [chooseDestination, resolve, hmem]
  obtain ⟨j, hj1, hj2, hj3, hj4⟩ :=
    searchFree_shape fs d maxProbes 1 (by omega)
  refine ⟨rfl, rfl, ⟨j, hj1, by omega, by rw [hres]; exact hj3⟩, ?_⟩
  rw [hres]
  cases hb : (searchFree fs d 1 maxProbes).2 with
  | false =>
    right
    rw [hj3]
    exact hj4 hb
  | true => left; rfl

/-- C9: when the desired name and all ten numeric-suffix probes are
taken, the Conflict Resolver terminates with the last probed name and the
warning flag, the Orchestrator surfaces the warning line, and the
extraction is still attempted into that last probed name. -/
theorem c9_graceful_exhaustion (fs : FS) (base : String) (es : List Entry)
    (pol : Policy)
    (hbase : fs.contains [base] = true)
    (hbusy : ∀ j, j < 11 → 1 ≤ j → fs.contains [probeName base j] = true)
    (hm : classify es = .many) :
    resolve fs base = (probeName base 10, true) ∧
    runActions fs
        (extractActions ⟨pol, false, false, 0, false, false⟩ fs base es) =
      (["WARNING: extracting into " ++ probeName base 10],
        fs ++ ([probeName base 10] ::
          es.map (fun e => probeName base 10 :: e.path))) := by
  have hmp : maxProbes = 10 := rfl
  have hmem : [base] ∈ fs := by simpa using hbase
  have hres : resolve fs base = (probeName base 10, true) := by
    have hx := searchFree_exhaust fs base maxProbes 1 (by omega)
      (fun j hj1 hj2 => hbusy j (by omega) hj1)
    have harg : 1 + maxProbes - 1 = 10 := rfl
    rw [harg] at hx
    simp [resolve, hmem, hx]
  have hdest : chooseDestination false fs base = (probeName base 10, true) :=
    hres
  have hplan : resolvePolicy (classify es) (resolveAsk pol none) base false =
      ⟨some base, none⟩ := by
    rw [hm]
    rfl
  refine ⟨hres, ?_⟩
  simp only [extractActions, hplan]
  rw [hdest]
  have hw : warnActs 0 (probeName base 10, true) =
      [Action.output ("WARNING: extracting into " ++ probeName base 10)] := rfl
  rw [hw]
  rw [runActions_append]
  have h1 : runActions fs
      [Action.output ("WARNING: extracting into " ++ probeName base 10)] =
      (["WARNING: extracting into " ++ probeName base 10], fs) := rfl
  rw [h1]
  rw [runActions_create_list fs [probeName base 10] es
    (fun e => probeName base 10 :: e.path)]
  simp

/-- C1: for an archive whose listing has exactly one top-level directory
entry, extracting under policy Here yields the tree with its original
names in the current directory; under policy Inside the same tree is
placed one level deeper under a new directory named after the archive
base name; under policy Rename the tree is extracted into the current
directory with the single top-level entry renamed to the archive base
name. -/
theorem c1_one_entry_policies (fs : FS) (es : List Entry) (n base : String)
    (q : Nat)
    (hcls : classify es = .oneDir n)
    (hfresh : fs.contains [base] = false)
    (hfs : ∀ p ∈ fs, p.headD "" ≠ n) :
    runActions fs
        (extractActions ⟨.here, false, false, q, false, false⟩ fs base es) =
      ([], fs ++ es.map Entry.path) ∧
    runActions fs
        (extractActions ⟨.inside, false, false, q, false, false⟩ fs base es) =
      ([], fs ++ ([base] :: es.map (fun e => base :: e.path))) ∧
    runActions fs
        (extractActions ⟨.renameEntry, false, false, q, false, false⟩
          fs base es) =
      ([], fs ++ es.map (fun e => base :: e.path.tail)) := by
  have hnfresh : [base] ∉ fs := by simpa using hfresh
  have hdest : chooseDestination false fs base = (base, false) := by
    simp [chooseDestination, resolve, hnfresh]
  have hheads : ∀ e ∈ es, e.topName = n :=
    topName_of_single (classify_oneDir_names hcls)
  refine ⟨?_, ?_, ?_⟩
  · have hplan : resolvePolicy (classify es)
        (resolveAsk .here none) base false = ⟨none, none⟩ := by
      rw [hcls]
      rfl
    simp only [extractActions, hplan]
    have h1 := runActions_creates fs (es.map Entry.path)
    simpa [List.map_map, Function.comp] using h1
  · have hplan : resolvePolicy (classify es)
        (resolveAsk .inside none) base false = ⟨some base, none⟩ := by
      rw [hcls]
      rfl
    simp only [extractActions, hplan]
    rw [hdest]
    have hw : warnActs q (base, false) = [] := rfl
    rw [hw]
    simp only [List.nil_append]
    exact runActions_create_list fs [base] es (fun e => base :: e.path)
  · have hplan : resolvePolicy (classify es)
        (resolveAsk .renameEntry none) base false =
        ⟨none, some (n, base)⟩ := by
      rw [hcls]
      rfl
    simp only [extractActions, hplan]
    rw [hdest]
    have hw : warnActs q (base, false) = [] := rfl
    rw [hw]
    simp only [List.nil_append]
    rw [runActions_append]
    have h1 : runActions fs (es.map (fun e => Action.create e.path)) =
        ([], fs ++ es.map Entry.path) := by
      have h2 := runActions_creates fs (es.map Entry.path)
      simpa [List.map_map, Function.comp] using h2
    rw [h1]
    have h3 : runActions (fs ++ es.map Entry.path) [Action.move n base] =
        ([], (fs ++ es.map Entry.path).map
          (fun q2 => if q2.headD "" = n then base :: q2.tail else q2)) := rfl
    rw [h3]
    rw [List.map_append]
    have hfix : fs.map
        (fun q2 => if q2.headD "" = n then base :: q2.tail else q2) = fs :=
      map_fix_of_mem (fun a ha => by rw [if_neg (hfs a ha)])
    rw [hfix]
    have hren : (es.map Entry.path).map
        (fun q2 => if q2.headD "" = n then base :: q2.tail else q2) =
        es.map (fun e => base :: e.path.tail) := by
      rw [List.map_map]
      apply List.map_congr_left
      intro e he
      have hh : e.path.headD "" = n := hheads e he
      simp only [Function.comp_apply]
      rw [if_pos hh]
    rw [hren]
    simp

/-- C2: for an archive classified as Many, the plan always creates the
wrapping directory named after the archive base name regardless of the
configured one-entry policy; with flat mode set the wrapping directory is
suppressed and the entries are extracted into the current directory. -/
theorem c2_many_always_wrapped (fs : FS) (es : List Entry) (base : String)
    (pol : Policy) (q : Nat)
    (hm : classify es = .many)
    (hfresh : fs.contains [base] = false) :
    (resolvePolicy (classify es) (resolveAsk pol none) base false).wrapDir =
      some base ∧
    runActions fs
        (extractActions ⟨pol, false, false, q, false, false⟩ fs base es) =
      ([], fs ++ ([base] :: es.map (fun e => base :: e.path))) ∧
    runActions fs
        (extractActions ⟨pol, true, false, q, false, false⟩ fs base es) =
      ([], fs ++ es.map Entry.path) := by
  have hnfresh : [base] ∉ fs := by simpa using hfresh
  have hdest : chooseDestination false fs base = (base, false) := by
    simp [chooseDestination, resolve, hnfresh]
  have hplan : resolvePolicy (classify es) (resolveAsk pol none) base false =
      ⟨some base, none⟩ := by
    rw [hm]
    rfl
  have hplanf : resolvePolicy (classify es) (resolveAsk pol none) base true =
      ⟨none, none⟩ := rfl
  refine ⟨by rw [hplan], ?_, ?_⟩
  · simp only [extractActions, hplan]
    rw [hdest]
    have hw : warnActs q (base, false) = [] := rfl
    rw [hw]
    simp only [List.nil_append]
    exact runActions_create_list fs [base] es (fun e => base :: e.path)
  · simp only [extractActions, hplanf]
    have h1 := runActions_creates fs (es.map Entry.path)
    simpa [List.map_map, Function.comp] using h1

/-- C8 counterexample: for a concrete archive with an empty listing, the
policy engine does not resolve to Inside semantics: no wrapping
directory named after the archive base name is planned, and the
extraction creates nothing at all.  This is the behavior pinned by the
repository test test_extracting_empty_archive, whose baseline executes
nothing and whose final file-set comparison admits no new directory. -/
theorem c8_empty_no_wrap :
    (resolvePolicy (classify ([] : List Entry))
        (resolveAsk .askEachTime none) "test-empty" false).wrapDir ≠
      some "test-empty" ∧
    runActions []
        (extractActions ⟨.askEachTime, false, false, 0, false, false⟩ []
          "test-empty" ([] : List Entry)) = ([], []) := by
  decide

/-- C8 amended: for every archive whose listing is empty, extraction
creates nothing: the policy engine plans no wrapping directory and no
rename, the extraction step emits no action, no line is printed, and the
filesystem is left exactly as it was. -/
theorem c8_empty_extracts_nothing (fs : FS) (es : List Entry)
    (base : String) (pol : Policy) (flat : Bool) (q : Nat)
    (he : classify es = .empty) :
    (resolvePolicy (classify es) (resolveAsk pol none) base flat).wrapDir =
      none ∧
    extractActions ⟨pol, flat, false, q, false, false⟩ fs base es = [] ∧
    runActions fs
        (extractActions ⟨pol, flat, false, q, false, false⟩ fs base es) =
      ([], fs) := by
  have hes : es = [] := classify_empty_imp he
  subst hes
  have hplan : resolvePolicy (classify ([] : List Entry))
      (resolveAsk pol none) base flat = ⟨none, none⟩ := by
    rw [he]
    cases flat <;> rfl
  have hact : extractActions ⟨pol, flat, false, q, false, false⟩ fs base
      ([] : List Entry) = [] := by
    simp only [extractActions, hplan]
    rfl
  exact ⟨by rw [hplan], hact, by rw [hact]; rfl⟩

/-! ### Lemmas about the Orchestrator loop -/

theorem processOne_ok (cfg : Config) (fs : FS) (i : InputFile) :
    (processOne cfg fs i).2.2 = inputOk i := by
  cases i with
  | archive nm es =>
    cases hlm : cfg.listMode <;> simp [processOne, inputOk, hlm]
  | missing nm => rfl
  | directoryPath nm => rfl
  | unreadable nm => rfl
  | noKnownSuffix nm => rfl
  | toolFailure nm code => rfl

theorem processOne_fail_fs (cfg : Config) (fs : FS) (i : InputFile)
    (h : inputOk i = false) : (processOne cfg fs i).2.1 = fs := by
  cases i <;> simp_all [processOne, inputOk]

theorem processOne_list_fs (cfg : Config) (h : cfg.listMode = true)
    (fs : FS) (i : InputFile) : (processOne cfg fs i).2.1 = fs := by
  cases i with
  | archive nm es =>
    simp [processOne, h, listProgram, runActions_outputs]
  | missing nm => rfl
  | directoryPath nm => rfl
  | unreadable nm => rfl
  | noKnownSuffix nm => rfl
  | toolFailure nm code => rfl

theorem processAll_ok (cfg : Config) :
    ∀ (is : List InputFile) (fs : FS),
      (processAll cfg fs is).2.2 = is.all inputOk := by
  intro is
  induction is with
  | nil => intro fs; rfl
  | cons i is ih =>
    intro fs
    simp [processAll, processOne_ok, ih, List.all_cons]

theorem processAll_list_fs (cfg : Config) (h : cfg.listMode = true) :
    ∀ (is : List InputFile) (fs : FS),
      (processAll cfg fs is).2.1 = fs := by
  intro is
  induction is with
  | nil => intro fs; rfl
  | cons i is ih =>
    intro fs
    simp [processAll, ih, processOne_list_fs cfg h]

/-- C5: for every archive and every recursion setting, listing mode
creates no file and modifies no file: the filesystem after a listing-mode
invocation is exactly the filesystem before it. -/
theorem c5_listing_touches_nothing (pol : Policy) (flat ow : Bool)
    (q : Nat) (r : Bool) (fs : FS) (inputs : List InputFile) :
    (dtrxRun ⟨pol, flat, ow, q, true, r⟩ fs inputs).2.1 = fs := by
  cases inputs with
  | nil => rfl
  | cons i is =>
    simp only [dtrxRun]
    exact processAll_list_fs ⟨pol, flat, ow, q, true, r⟩ rfl (i :: is) fs

/-- C6: the exit code is zero exactly when at least one archive was given
and every input archive succeeded; an invocation with no archives exits
non-zero and prints the usage line; a failing input leaves the filesystem
untouched and processing continues identically for the remaining
archives while the failure is still recorded. -/
theorem c6_exit_codes (cfg : Config) (fs : FS) (inputs : List InputFile) :
    (dtrxRun cfg fs []).2.2 ≠ 0 ∧
    (dtrxRun cfg fs []).1 = [usageLine] ∧
    ((dtrxRun cfg fs inputs).2.2 = 0 ↔
      inputs ≠ [] ∧ inputs.all inputOk = true) ∧
    (∀ b rest, inputOk b = false →
      (processAll cfg fs (b :: rest)).2.1 =
        (processAll cfg fs rest).2.1 ∧
      (processAll cfg fs (b :: rest)).2.2 = false) := by
  refine ⟨by simp [dtrxRun], rfl, ?_, ?_⟩
  · cases inputs with
    | nil => simp [dtrxRun]
    | cons i is =>
      cases hall : (i :: is).all inputOk with
      | false => simp [dtrxRun, processAll_ok cfg (i :: is) fs, hall]
      | true => simp [dtrxRun, processAll_ok cfg (i :: is) fs, hall]
  · intro b rest hb
    constructor
    · have h1 : (processOne cfg fs b).2.1 = fs :=
        processOne_fail_fs cfg fs b hb
      simp [processAll, h1]
    · simp [processAll, processOne_ok, hb]

/-- C7 counterexample: with recursion requested in listing mode, an entry
whose name matches a known archive suffix is not expanded: on a concrete
archive holding a nested tar, the inner directory line is absent from the
produced listing (while the recursive-expansion reading of the
specification would include it), and the nested archive appears only as
an ordinary line.  This matches the repository test
test_recursive_listing_is_a_no_op. -/
theorem c7_no_recursive_expansion :
    ¬ ("testdir/" ∈
      (processOne ⟨Policy.here, false, false, 0, true, true⟩ []
        (InputFile.archive "test-recursive-badperms.tar.bz2"
          [Entry.mk ["test-badperms.tar"] false
            [Entry.mk ["testdir"] true [],
             Entry.mk ["testdir", "testfile"] false []]])).1) ∧
    "testdir/" ∈ listLinesExpanded 2
      [Entry.mk ["test-badperms.tar"] false
        [Entry.mk ["testdir"] true [],
         Entry.mk ["testdir", "testfile"] false []]] ∧
    "test-badperms.tar" ∈
      (processOne ⟨Policy.here, false, false, 0, true, true⟩ []
        (InputFile.archive "test-recursive-badperms.tar.bz2"
          [Entry.mk ["test-badperms.tar"] false
            [Entry.mk ["testdir"] true [],
             Entry.mk ["testdir", "testfile"] false []]])).1 := by
  decide

/-- C7 amended: in listing mode the recursion flag is a no-op: the
produced lines are exactly the display lines of the top-level listing,
independent of the recursive flag, and entries naming nested archives
appear as ordinary lines without expansion. -/
theorem c7_listing_recursion_noop (pol : Policy) (flat ow : Bool)
    (q : Nat) (r : Bool) (fs : FS) (nm : String) (es : List Entry) :
    (processOne ⟨pol, flat, ow, q, true, r⟩ fs (.archive nm es)).1 =
      es.map display ∧
    processOne ⟨pol, flat, ow, q, true, true⟩ fs (.archive nm es) =
      processOne ⟨pol, flat, ow, q, true, false⟩ fs (.archive nm es) := by
  constructor
  · simp [processOne, listProgram, runActions_outputs]
  · rfl

/-- C10: at the doubly-quiet level, an input that is not a recognized
archive makes the invocation exit non-zero while nothing at all is
written: the failure is reflected only in the exit code. -/
theorem c10_doubly_quiet (pol : Policy) (flat ow lm r : Bool) (fs : FS)
    (nm : String) :
    dtrxRun ⟨pol, flat, ow, 2, lm, r⟩ fs [.noKnownSuffix nm] =
      ([], fs, 1) := by
  simp [dtrxRun, processAll, processOne, emitLine]

/-! ### Witnesses instantiating the theorems that carry hypotheses -/

theorem c1_one_entry_policies_witness :
    (classify oneDirListing = .oneDir "test" ∧
      List.contains [["keep"]] ["test-onedir"] = false ∧
      ∀ p ∈ [["keep"]], List.headD p "" ≠ "test") ∧
    (runActions [["keep"]]
        (extractActions ⟨.here, false, false, 0, false, false⟩ [["keep"]]
          "test-onedir" oneDirListing) =
      ([], [["keep"]] ++ oneDirListing.map Entry.path) ∧
    runActions [["keep"]]
        (extractActions ⟨.inside, false, false, 0, false, false⟩ [["keep"]]
          "test-onedir" oneDirListing) =
      ([], [["keep"]] ++ (["test-onedir"] ::
        oneDirListing.map (fun e => "test-onedir" :: e.path))) ∧
    runActions [["keep"]]
        (extractActions ⟨.renameEntry, false, false, 0, false, false⟩
          [["keep"]] "test-onedir" oneDirListing) =
      ([], [["keep"]] ++
        oneDirListing.map (fun e => "test-onedir" :: e.path.tail))) :=
  ⟨⟨by decide, by decide, by decide⟩,
    c1_one_entry_policies [["keep"]] oneDirListing "test" "test-onedir" 0
      (by decide) (by decide) (by decide)⟩

theorem c2_many_always_wrapped_witness :
    (classify manyListing = .many ∧
      List.contains ([] : FS) ["test-1.23"] = false) ∧
    ((resolvePolicy (classify manyListing) (resolveAsk .here none)
        "test-1.23" false).wrapDir = some "test-1.23" ∧
    runActions []
        (extractActions ⟨.here, false, false, 0, false, false⟩ []
          "test-1.23" manyListing) =
      ([], [] ++ (["test-1.23"] ::
        manyListing.map (fun e => "test-1.23" :: e.path))) ∧
    runActions []
        (extractActions ⟨.here, true, false, 0, false, false⟩ []
          "test-1.23" manyListing) =
      ([], [] ++ manyListing.map Entry.path)) :=
  ⟨⟨by decide, by decide⟩,
    c2_many_always_wrapped [] manyListing "test-1.23" .here 0
      (by decide) (by decide)⟩

theorem c3_conflict_resolver_witness :
    (1 ≤ 10 ∧ 10 ≤ maxProbes ∧
      List.contains busyNine [probeName "test-1.23" 10] = false ∧
      ∀ j, j < 10 → 1 ≤ j →
        List.contains busyNine [probeName "test-1.23" j] = true) ∧
    resolve busyNine "test-1.23" =
      (if List.contains busyNine ["test-1.23"]
        then (probeName "test-1.23" 10, false)
        else ("test-1.23", false)) :=
  ⟨⟨by decide, by decide, by decide, by decide⟩,
    c3_conflict_resolver busyNine "test-1.23" 10
      (by decide) (by decide) (by decide) (by decide)⟩

theorem c4_overwrite_protection_witness :
    List.contains [["test-1.23"]] ["test-1.23"] = true ∧
    (chooseDestination true [["test-1.23"]] "test-1.23" =
        ("test-1.23", false) ∧
      chooseDestination false [["test-1.23"]] "test-1.23" =
        resolve [["test-1.23"]] "test-1.23" ∧
      (∃ i, 1 ≤ i ∧ i ≤ maxProbes ∧
        (chooseDestination false [["test-1.23"]] "test-1.23").1 =
          probeName "test-1.23" i) ∧
      ((chooseDestination false [["test-1.23"]] "test-1.23").2 = true ∨
        List.contains [["test-1.23"]]
          [(chooseDestination false [["test-1.23"]] "test-1.23").1] =
          false)) :=
  ⟨by decide, c4_overwrite_protection [["test-1.23"]] "test-1.23" (by decide)⟩

theorem c8_empty_extracts_nothing_witness :
    classify ([] : List Entry) = .empty ∧
    ((resolvePolicy (classify ([] : List Entry))
        (resolveAsk .askEachTime none) "test-empty" false).wrapDir = none ∧
    extractActions ⟨.askEachTime, false, false, 0, false, false⟩ []
        "test-empty" ([] : List Entry) = [] ∧
    runActions []
        (extractActions ⟨.askEachTime, false, false, 0, false, false⟩ []
          "test-empty" ([] : List Entry)) = ([], [])) :=
  ⟨by decide,
    c8_empty_extracts_nothing [] [] "test-empty" .askEachTime false 0
      (by decide)⟩

theorem c9_graceful_exhaustion_witness :
    (List.contains busyTen ["test-1.23"] = true ∧
      (∀ j, j < 11 → 1 ≤ j →
        List.contains busyTen [probeName "test-1.23" j] = true) ∧
      classify manyListing = .many) ∧
    (resolve busyTen "test-1.23" = (probeName "test-1.23" 10, true) ∧
    runActions busyTen
        (extractActions ⟨.inside, false, false, 0, false, false⟩ busyTen
          "test-1.23" manyListing) =
      (["WARNING: extracting into " ++ probeName "test-1.23" 10],
        busyTen ++ ([probeName "test-1.23" 10] ::
          manyListing.map (fun e => probeName "test-1.23" 10 :: e.path)))) :=
  ⟨⟨by decide, by decide, by decide⟩,
    c9_graceful_exhaustion busyTen "test-1.23" manyListing .inside
      (by decide) (by decide) (by decide)⟩

end Dtrx
